import Mathlib

/-
Verification development for the lyrics stress-analysis backend.

The Python sources embedded here:
  src/backend/app/stress_analysis.py  (ComprehensiveStressAnalyzer)
  src/backend/app/dictionary.py       (CMUDictionary, analyze_contextual_stress)
  src/backend/app/main.py             (analyze_batch_stress endpoint)

Modelling conventions:
  - Python str values are Lean String (a structure over List Char); the
    ASCII-only helpers below (lowerChar, strTrim, pySplit, ...) mirror the
    CPython behaviour of str.lower, str.strip, str.split and friends on the
    ASCII inputs this program handles.
  - The external capabilities (spaCy tagger, G2P predictor, the on-disk CMU
    dictionary contents) are parameters: a token stream `List Token`, an
    oracle `g2p : String -> List String` for raw predictor output, and an
    oracle `cmu : String -> Option CMUEntry` for the loaded dictionary map.
  - Python float arithmetic appears only in two index computations
    (`int(i * step)` style); these are modelled by exact natural division
    `(i * m) / n`, and in the two confidence literals 0.95 / 0.8, modelled
    as rationals.
  - Wall-clock timing (processing_time_ms) is not modelled; it is threaded
    through as an explicit parameter.
-/

namespace Lyrics

/-- ASCII uppercase letter test, modelling the regex class `[A-Z]`. -/
def isUpperCh (c : Char) : Bool := 65 ≤ c.toNat && c.toNat ≤ 90

/-- ASCII digit test, modelling Python `str.isdigit` on ASCII input. -/
def isDigitCh (c : Char) : Bool := 48 ≤ c.toNat && c.toNat ≤ 57

/-- Python whitespace (space, tab, newline, carriage return, vertical tab,
form feed), the default class for `str.strip`, `str.split` and regex `\s`. -/
def isSpaceCh (c : Char) : Bool :=
  c.toNat = 32 || c.toNat = 9 || c.toNat = 10 || c.toNat = 13 ||
    c.toNat = 11 || c.toNat = 12

/-- ASCII lowering of one character, modelling `str.lower` per character. -/
def lowerChar (c : Char) : Char :=
  if isUpperCh c then Char.ofNat (c.toNat + 32) else c

/-- Modelling Python `s.lower()` on ASCII strings. -/
def strToLower (s : String) : String := String.mk (s.data.map lowerChar)

/-- Modelling Python `s.strip()`: drop whitespace at both ends. -/
def strTrim (s : String) : String :=
  String.mk (((s.data.dropWhile isSpaceCh).reverse.dropWhile isSpaceCh).reverse)

/-- Modelling Python `s.startswith(p)`. -/
def strStartsWith (s p : String) : Bool := s.data.take p.data.length == p.data

/-- Modelling Python `s.endswith(p)`. -/
def strEndsWith (s p : String) : Bool := s.data.drop (s.data.length - p.data.length) == p.data

/-- Single pass over the characters with the (reversed) pending token as
accumulator: whitespace closes the pending token, everything else extends
it. -/
def pySplitAccum : List Char → List Char → List (List Char)
  | [], acc => if acc = [] then [] else [acc.reverse]
  | c :: rest, acc =>
    if isSpaceCh c then
      if acc = [] then pySplitAccum rest [] else acc.reverse :: pySplitAccum rest []
    else pySplitAccum rest (c :: acc)

/-- Modelling Python `s.split()` (split on whitespace runs, no empty
parts), at the character-list level. -/
def pySplitChars (cs : List Char) : List (List Char) := pySplitAccum cs []

/-- Modelling Python `s.split()` on a string. -/
def pySplit (s : String) : List String := (pySplitChars s.data).map String.mk

/-- Modelling Python `" ".join(parts)` at the character-list level. -/
def joinSpaceChars : List (List Char) → List Char
  | [] => []
  | [x] => x
  | x :: y :: rest => x ++ ' ' :: joinSpaceChars (y :: rest)

/-- Modelling Python `" ".join(parts)`. -/
def joinSpace (parts : List String) : String :=
  String.mk (joinSpaceChars (parts.map String.data))

/-- The in-place while-loop of `_apply_prosodic_smoothing` (lines 362-377 of
stress_analysis.py), as a pure function on the local `stress_sequence` copy:
while fewer than three positions remain do nothing; on a window of three
positive digits demote the middle one to 0 when it is exactly 1 and jump
past the whole window; otherwise advance one position. -/
def smoothStressSequence : List Nat → List Nat
  | a :: b :: c :: rest =>
    if 0 < a ∧ 0 < b ∧ 0 < c then
      a :: (if b = 1 then 0 else b) :: c :: smoothStressSequence rest
    else
      a :: smoothStressSequence (b :: c :: rest)
  | l => l

/-- dictionary.py, dataclass StressPattern: one loaded dictionary entry. -/
structure StressPattern where
  word : String
  syllables : List String
  stress_pattern : List Nat
  phonemes : List String
  confidence : Rat := 1
deriving Repr, DecidableEq

/-- Does the phoneme end with a stress digit?  This is the test
`phoneme[-1].isdigit()` used by both `_extract_stress_pattern` and
`_phonemes_to_syllables` (dictionary.py lines 87 and 95).  Dictionary
phonemes come from `line.split()` and are never empty; an empty string
(on which Python indexing would fail) is mapped to `false`. -/
def phonemeEndsDigit (p : String) : Bool :=
  match p.data.getLast? with
  | some c => isDigitCh c
  | none => false

/-- CMUDictionary._extract_stress_pattern (dictionary.py lines 80-90):
collect `int(phoneme[-1])` for every phoneme whose last character is a
digit. -/
def extract_stress_pattern (phonemes : List String) : List Nat :=
  phonemes.filterMap fun p =>
    match p.data.getLast? with
    | some c => if isDigitCh c then some (c.toNat - 48) else none
    | none => none

/-- CMUDictionary._phonemes_to_syllables (dictionary.py lines 92-110):
count the digit-bearing phonemes; one phoneme or fewer gives the whole
word as the only syllable, otherwise the word is cut into `vowel_count`
equal-width spans.  `int(i * syllable_length)` over Python floats is
modelled by exact natural division `(i * word_length) / vowel_count`. -/
def phonemes_to_syllables (word : String) (phonemes : List String) : List String :=
  let vowel_count := phonemes.countP phonemeEndsDigit
  if vowel_count ≤ 1 then [word]
  else
    let L := word.data.length
    (List.range vowel_count).map fun i =>
      String.mk ((word.data.take
        (if i < vowel_count - 1 then ((i + 1) * L) / vowel_count else L)).drop
        ((i * L) / vowel_count))

/-- One iteration of the `_load_dictionary` parsing loop (dictionary.py
lines 43-63): strip the line, skip blank lines and `;;;` comments, split
into word and phonemes, require at least one phoneme, skip parenthesised
variant pronunciations, and lowercase the word key. -/
def parse_dict_line (line : String) : Option (String × List String) :=
  let l := strTrim line
  if l.data = [] then none
  else if strStartsWith l (";;;") then none
  else
    match pySplit l with
    | [] => none
    | [_] => none
    | w :: ps =>
      if w.data.contains (Char.ofNat 40) then none
      else some (strToLower w, ps)

/-- The StressPattern record built by `_load_dictionary` (dictionary.py
lines 66-74) for a parsed (word_key, phonemes) pair. -/
def mk_dict_entry (word_key : String) (phonemes : List String) : StressPattern :=
  { word := word_key
    syllables := phonemes_to_syllables word_key phonemes
    stress_pattern := extract_stress_pattern phonemes
    phonemes := phonemes }

/-- The dictionary entry created at load time from one raw input line, or
none when the line is skipped. -/
def load_entry_of_line (line : String) : Option StressPattern :=
  (parse_dict_line line).map fun kp => mk_dict_entry kp.1 kp.2

/-- CMUDictionary.lookup (dictionary.py lines 112-116): normalise the word
with `word.lower().strip()` and consult the loaded map, which is modelled
by the oracle `cmu`. -/
def cmu_lookup (cmu : String → Option StressPattern) (w : String) : Option StressPattern :=
  cmu (strTrim (strToLower w))

/-- stress_analysis.py: the ARPAbet vowel set `self.VOWELS`. -/
def VOWELS : List String :=
  ["AA", "AE", "AH", "AO", "AW", "AY", "EH", "ER", "EY", "IH", "IY",
   "OW", "OY", "UH", "UW"]

/-- One spaCy token as consumed by the analyzer: raw text, coarse POS tag,
dependency label, lemma and the punctuation flag.  `token.lower_` is
recovered as `strToLower text`. -/
structure Token where
  text : String
  pos : String
  dep : String
  lemma_ : String
  is_punct : Bool
deriving Repr, DecidableEq

/-- stress_analysis.py, dataclass WordAnalysis. -/
structure WordAnalysis where
  word : String
  pos : String
  syllables : List String
  stress_pattern : List Nat
  reasoning : String
  char_positions : List Nat
  confidence : Rat := 1
deriving Repr, DecidableEq

/-- stress_analysis.py, dataclass StressAnalysisResult. -/
structure StressAnalysisResult where
  text : String
  words : List WordAnalysis
  total_syllables : Nat
  stressed_syllables : Nat
  processing_time_ms : Rat
deriving Repr, DecidableEq

/-- The shape filter G2P output goes through in `get_phonemes` (line 120):
`re.match(r"[A-Z]+[0-2]?$", p)` — one or more uppercase letters, then an
optional stress digit 0-2, then end of string. -/
def g2pPhonemeOk (p : String) : Bool :=
  let base := p.data.takeWhile isUpperCh
  let rest := p.data.dropWhile isUpperCh
  (!base.isEmpty) && (rest == [] || rest == ['0'] || rest == ['1'] || rest == ['2'])

/-- ComprehensiveStressAnalyzer.get_phonemes (lines 109-121): CMU lookup of
`word.lower()` first, else the filtered G2P prediction, joined by spaces.
(The lru_cache decorator memoises a pure function and is dropped.) -/
def get_phonemes (cmu : String → Option StressPattern) (g2p : String → List String)
    (word : String) : String :=
  match cmu_lookup cmu (strToLower word) with
  | some e => joinSpace e.phonemes
  | none => joinSpace ((g2p word).filter g2pPhonemeOk)

/-- The per-phoneme step of `extract_stress_digits` (lines 126-132):
`re.match(r"([A-Z]+)([0-2]?)", phoneme)` fails only when the phoneme does
not start with an uppercase letter; the base is the maximal uppercase
prefix, the digit group takes the next character when it is 0, 1 or 2;
a missing digit counts as 0; only bases in VOWELS contribute. -/
def stressDigitOfPhoneme (p : String) : Option Nat :=
  let base := p.data.takeWhile isUpperCh
  if base.isEmpty then none
  else
    let rest := p.data.dropWhile isUpperCh
    let d : Nat :=
      match rest with
      | c :: _ => if c = '0' then 0 else if c = '1' then 1 else if c = '2' then 2 else 0
      | [] => 0
    if VOWELS.contains (String.mk base) then some d else none

/-- ComprehensiveStressAnalyzer.extract_stress_digits (lines 123-133). -/
def extract_stress_digits (phonemes_str : String) : List Nat :=
  (pySplit phonemes_str).filterMap stressDigitOfPhoneme

/-- ComprehensiveStressAnalyzer.analyze_monosyllable_stress (lines 139-173).
`next?` is `token.nbor(1)` when the token has a successor in the doc.
The string n't is written without a literal apostrophe character. -/
def analyze_monosyllable_stress (token : Token) (next? : Option Token) : Nat × String :=
  let word := strToLower token.text
  let pos := token.pos
  if word = "not" ∨ strEndsWith token.text (String.mk ['n', Char.ofNat 39, 't']) then
    (1, "negation_stressed")
  else if word = "there" then
    match next? with
    | some nt =>
      if nt.lemma_ = "be" ∧ (nt.pos = "AUX" ∨ nt.pos = "VERB") then
        (0, "existential_there_unstressed")
      else (1, "locative_there_stressed")
    | none => (1, "locative_there_stressed")
  else if token.dep = "prt" then (1, "phrasal_verb_particle_stressed")
  else if pos = "DET" ∨ pos = "PRON" ∨ pos = "ADP" ∨ pos = "AUX" ∨ pos = "PART" ∨
      pos = "CCONJ" ∨ pos = "SCONJ" then
    (0, "function_word_unstressed_" ++ strToLower pos)
  else if pos = "NOUN" ∨ pos = "VERB" ∨ pos = "ADJ" ∨ pos = "ADV" ∨ pos = "INTJ" then
    (1, "content_word_stressed_" ++ strToLower pos)
  else
    (0, "default_unstressed_" ++ strToLower pos)

/-- Is the character a vowel letter?  Models `char.lower() in "aeiouy"`
(line 181) and `char in "aeiouy"` over `word.lower()` (line 307). -/
def isVowelLetter (c : Char) : Bool :=
  ['a', 'e', 'i', 'o', 'u', 'y'].contains (lowerChar c)

/-- Indices of the vowel letters of a character list, counting from `i`. -/
def vowelIdxsAux : List Char → Nat → List Nat
  | [], _ => []
  | c :: cs, i =>
    if isVowelLetter c then i :: vowelIdxsAux cs (i + 1) else vowelIdxsAux cs (i + 1)

/-- Python `[i for i, char in enumerate(word) if char.lower() in "aeiouy"]`. -/
def vowelIdxs (word : String) : List Nat := vowelIdxsAux word.data 0

/-- The while loop `while len(vp) < n: vp.append(vp[-1])` of
map_syllables_to_chars (lines 204-206). -/
def padLastUntil (l : List Nat) (n : Nat) : List Nat :=
  if l.length < n then padLastUntil (l ++ [l.getLast?.getD 0]) n else l
termination_by n - l.length
decreasing_by simp_all; omega

/-- ComprehensiveStressAnalyzer.map_syllables_to_chars (lines 175-208).
The proportional-spacing index `int(i * step)` with Python float
`step = len(vp) / n` is modelled by exact natural division. -/
def map_syllables_to_chars (word : String) (n_syllables : Nat) : List Nat :=
  let vowel_positions := vowelIdxs word
  if vowel_positions = [] then []
  else if vowel_positions.length = n_syllables then vowel_positions
  else if n_syllables < vowel_positions.length then
    let vp :=
      if strEndsWith word ("e") = true ∧ 1 < vowel_positions.length then
        vowel_positions.dropLast
      else vowel_positions
    if n_syllables < vp.length then
      (List.range n_syllables).map fun i => vp.getD ((i * vp.length) / n_syllables) 0
    else vp.take n_syllables
  else
    (padLastUntil vowel_positions n_syllables).take n_syllables

/-- Sum of the lengths of the accumulated syllables: Python
`len("".join(syllables))`. -/
def sumLens (acc : List (List Char)) : Nat := (acc.map List.length).sum

/-- The split point computed at step `i` of the _approximate_syllables
loop: `min(vp[nvi], (vp[i] + vp[nvi]) // 2 + 1)` with
`nvi = min(i + 1, len(vp) - 1)` (lines 318-321 and 332-336; for `i = 0`
with `len(vp) > 1` this is exactly the first-syllable split point since
`nvi = 1` there). -/
def spt (vp : List Nat) (i : Nat) : Nat :=
  min (vp.getD (min (i + 1) (vp.length - 1)) 0)
    ((vp.getD i 0 + vp.getD (min (i + 1) (vp.length - 1)) 0) / 2 + 1)

/-- The body of the `for i in range(n_syllables)` loop of
_approximate_syllables (lines 314-337), producing the slice appended at
step `i` given the syllables accumulated so far (`sumLens acc` is the
`prev_split = len("".join(syllables))` of the source). -/
def approxPiece (w : List Char) (vp : List Nat) (n i : Nat) (acc : List (List Char)) :
    List Char :=
  if i = 0 then
    if 1 < vp.length then w.take (spt vp 0) else w
  else if i = n - 1 then
    w.drop (sumLens acc)
  else
    (w.take (spt vp i)).drop (sumLens acc)

/-- The `for i in range(n_syllables)` loop itself. -/
def approxGo (w : List Char) (vp : List Nat) (n : Nat) : Nat → List (List Char) → List (List Char)
  | i, acc =>
    if i < n then approxGo w vp n (i + 1) (acc ++ [approxPiece w vp n i acc]) else acc
termination_by i _ => n - i
decreasing_by simp_all; omega

/-- ComprehensiveStressAnalyzer._approximate_syllables (lines 301-349).
The equal-division fallback indices `int(i * syllable_length)` over Python
floats are modelled by exact natural division. -/
def approximate_syllables (word : String) (n_syllables : Nat) : List String :=
  if n_syllables ≤ 1 then [word]
  else
    let w := word.data
    let vowel_positions := vowelIdxs word
    if n_syllables ≤ vowel_positions.length then
      ((approxGo w vowel_positions n_syllables 0 []).filter (fun s => !s.isEmpty)).map
        String.mk
    else
      (List.range n_syllables).map fun i =>
        String.mk ((w.take
          (if i < n_syllables - 1 then ((i + 1) * w.length) / n_syllables else w.length)).drop
          ((i * w.length) / n_syllables))

/-- The dictionary-hit confidence literal `0.95` of analyze_text line 280. -/
def cmuConfidence : Rat := 95 / 100

/-- The fallback confidence literal `0.8` of analyze_text line 280. -/
def fallbackConfidence : Rat := 8 / 10

/-- The stress-pattern / syllables / reasoning selection of the per-token
branch of analyze_text (lines 240-267): resolve phonemes, derive the digit
sequence, then branch on monosyllable vs dictionary vs G2P vs fallback.
`next?` is `token.nbor(1)`, the following token of the doc (punctuation
included).  Note the fallback branch is unreachable: an empty digit
sequence forces `n_syllables = 1` and hence the monosyllable branch. -/
def classifyToken (cmu : String → Option StressPattern) (g2p : String → List String)
    (token : Token) (next? : Option Token) : List Nat × List String × String :=
  let word := token.text
  let stress_pattern0 := extract_stress_digits (get_phonemes cmu g2p word)
  let n_syllables := if stress_pattern0 = [] then 1 else stress_pattern0.length
  if n_syllables = 1 then
    let lr := analyze_monosyllable_stress token next?
    ([lr.1], [word], lr.2)
  else if stress_pattern0 ≠ [] then
    match cmu_lookup cmu (strToLower word) with
    | some e => (stress_pattern0, e.syllables, "cmu_dictionary_multisyllable")
    | none =>
      (stress_pattern0, approximate_syllables word n_syllables,
        "g2p_fallback_multisyllable")
  else
    ([1], [word], "fallback_single_stressed")

/-- The body of the per-token loop of analyze_text (lines 237-281), for one
non-skipped token: classification, character alignment and the confidence
assignment `0.95 if reasoning.startswith("cmu_") else 0.8` (line 280). -/
def analyzeToken (cmu : String → Option StressPattern) (g2p : String → List String)
    (token : Token) (next? : Option Token) : WordAnalysis :=
  let spr := classifyToken cmu g2p token next?
  { word := token.text
    pos := token.pos
    syllables := spr.2.1
    stress_pattern := spr.1
    reasoning := spr.2.2
    char_positions := map_syllables_to_chars token.text spr.1.length
    confidence :=
      if strStartsWith spr.2.2 ("cmu_") then cmuConfidence else fallbackConfidence }

/-- The token loop of analyze_text (lines 232-285): skip tokens whose text
strips to nothing and punctuation tokens; analyse the rest.  The successor
passed to `analyzeToken` is the next token of the doc, skipped or not. -/
def analyzeTokens (cmu : String → Option StressPattern) (g2p : String → List String) :
    List Token → List WordAnalysis
  | [] => []
  | t :: rest =>
    if strTrim t.text = "" ∨ t.is_punct = true then analyzeTokens cmu g2p rest
    else analyzeToken cmu g2p t rest.head? :: analyzeTokens cmu g2p rest

/-- ComprehensiveStressAnalyzer._apply_prosodic_smoothing (lines 351-380).
The Python method returns None; its only computation builds the local list
`stress_sequence` (extend copies the immutable digits), demotes digits in
that local copy via the scan modelled by `smoothStressSequence`, and never
writes anything back into `word_analyses` (the mapping-back step is an
empty comment block), so its effect on the analyses list is the identity. -/
def apply_prosodic_smoothing (word_analyses : List WordAnalysis) : List WordAnalysis :=
  let stress_sequence := word_analyses.foldl (fun acc a => acc ++ a.stress_pattern) []
  let _smoothed := smoothStressSequence stress_sequence
  word_analyses

/-- ComprehensiveStressAnalyzer.analyze_text (lines 210-299), given the
spaCy doc for `text` as a token list and the measured elapsed time. -/
def analyze_text (cmu : String → Option StressPattern) (g2p : String → List String)
    (tokens : List Token) (text : String) (elapsedMs : Rat) : StressAnalysisResult :=
  let word_analyses := analyzeTokens cmu g2p tokens
  let total_syllables := (word_analyses.map fun w => w.stress_pattern.length).sum
  let stressed_syllables :=
    (word_analyses.map fun w => w.stress_pattern.countP (fun s => 0 < s)).sum
  let words := if 2 < word_analyses.length then apply_prosodic_smoothing word_analyses
    else word_analyses
  { text := text
    words := words
    total_syllables := total_syllables
    stressed_syllables := stressed_syllables
    processing_time_ms := elapsedMs }

/-- analyze_text with the prosodic-smoothing call deleted (lines 287-289
removed); used to state that the smoothing pass has no observable effect. -/
def analyze_text_unsmoothed (cmu : String → Option StressPattern)
    (g2p : String → List String) (tokens : List Token) (text : String)
    (elapsedMs : Rat) : StressAnalysisResult :=
  let word_analyses := analyzeTokens cmu g2p tokens
  let total_syllables := (word_analyses.map fun w => w.stress_pattern.length).sum
  let stressed_syllables :=
    (word_analyses.map fun w => w.stress_pattern.countP (fun s => 0 < s)).sum
  { text := text
    words := word_analyses
    total_syllables := total_syllables
    stressed_syllables := stressed_syllables
    processing_time_ms := elapsedMs }

/-- One line entry of the analyze-batch response (main.py lines 317-337). -/
structure LineResult where
  line_number : Nat
  text : String
  total_syllables : Nat
  stressed_syllables : Nat
  processing_time_ms : Rat
  words : List WordAnalysis
deriving Repr, DecidableEq

/-- The analyze-batch response (main.py lines 339-343). -/
structure BatchResult where
  total_lines : Nat
  total_processing_time_ms : Rat
  lines : List LineResult
deriving Repr, DecidableEq

/-- The `for line_number, text in enumerate(lines, 1)` loop of
analyze_batch_stress (main.py lines 310-337): the counter advances on
every line, blank-after-trim lines are skipped, the rest are analysed on
their trimmed text (`nlp` supplies the spaCy doc for a trimmed line). -/
def batchLoop (cmu : String → Option StressPattern) (g2p : String → List String)
    (nlp : String → List Token) : Nat → List String → List LineResult
  | _, [] => []
  | line_number, text :: rest =>
    if strTrim text = "" then batchLoop cmu g2p nlp (line_number + 1) rest
    else
      let result := analyze_text cmu g2p (nlp (strTrim text)) (strTrim text) 0
      { line_number := line_number
        text := result.text
        total_syllables := result.total_syllables
        stressed_syllables := result.stressed_syllables
        processing_time_ms := result.processing_time_ms
        words := result.words } :: batchLoop cmu g2p nlp (line_number + 1) rest

/-- main.py analyze_batch_stress (lines 289-343), timing fixed at zero. -/
def analyze_batch_stress (cmu : String → Option StressPattern)
    (g2p : String → List String) (nlp : String → List Token)
    (lines : List String) : BatchResult :=
  let results := batchLoop cmu g2p nlp 1 lines
  { total_lines := results.length
    total_processing_time_ms := (results.map LineResult.processing_time_ms).sum
    lines := results }

/-- Abstract syntax of the fragment of Python regular expressions used by
the contextual pattern tables of dictionary.py: literal characters,
character classes, sequencing, alternation, Kleene star, the zero-width
word-boundary assertion and the start-of-string anchor. -/
inductive RE where
  | emp : RE
  | ch : Char → RE
  | cls : List Char → RE
  | seq : RE → RE → RE
  | alt : RE → RE → RE
  | star : RE → RE
  | wb : RE
  | bos : RE
deriving Repr, DecidableEq

/-- Word character for `\b`: `[a-zA-Z0-9_]`. -/
def isWordCh (c : Char) : Bool :=
  (97 ≤ c.toNat && c.toNat ≤ 122) || isUpperCh c || isDigitCh c || c.toNat = 95

/-- Is position `i` of `s` a `\b` word boundary? -/
def wordBoundary (s : List Char) (i : Nat) : Bool :=
  let before := decide (0 < i) && isWordCh (s.getD (i - 1) ' ')
  let after := decide (i < s.length) && isWordCh (s.getD i ' ')
  before != after

/-- Backtracking matcher: the set of end positions (as a list) at which `re`
can match inside `s` starting at position `i`.  `fuel` bounds the call
depth; every recursive call consumes one unit, and star iterations must
consume input, so any fuel at least `sizeOf re + 2 * s.length + 2` per
nesting level is enough.  All uses below evaluate it on concrete inputs. -/
def reMatch (s : List Char) : Nat → RE → Nat → List Nat
  | 0, _, _ => []
  | Nat.succ fuel, r, i =>
    match r with
    | RE.emp => [i]
    | RE.ch c =>
      match s.get? i with
      | some d => if d = c then [i + 1] else []
      | none => []
    | RE.cls l =>
      match s.get? i with
      | some d => if l.contains d then [i + 1] else []
      | none => []
    | RE.seq r1 r2 => (reMatch s fuel r1 i).flatMap fun j => reMatch s fuel r2 j
    | RE.alt r1 r2 => reMatch s fuel r1 i ++ reMatch s fuel r2 i
    | RE.star r1 =>
      i :: (reMatch s fuel r1 i).flatMap fun j =>
        if i < j then reMatch s fuel (RE.star r1) j else []
    | RE.wb => if wordBoundary s i then [i] else []
    | RE.bos => if i = 0 then [i] else []

/-- Modelling `re.search(pattern, s)`: does the pattern match anywhere in `s`? -/
def research (r : RE) (s : String) : Bool :=
  (List.range (s.data.length + 1)).any fun i => !(reMatch s.data 1000 r i).isEmpty

/-- Literal string pattern. -/
def rstr (t : String) : RE := t.data.foldr (fun c acc => RE.seq (RE.ch c) acc) RE.emp

/-- Concatenation of a pattern list. -/
def rcat (l : List RE) : RE := l.foldr RE.seq RE.emp

/-- Alternation `(?:a|b|...)`; the empty list matches nothing. -/
def ralts : List RE → RE
  | [] => RE.cls []
  | r :: rs => rs.foldl RE.alt r

/-- Alternation of literal words. -/
def rwords (l : List String) : RE := ralts (l.map rstr)

/-- The `\s` character class. -/
def wsCls : RE :=
  RE.cls [' ', Char.ofNat 9, Char.ofNat 10, Char.ofNat 13, Char.ofNat 11, Char.ofNat 12]

/-- One or more repetitions, `r+`. -/
def rplus (r : RE) : RE := RE.seq r (RE.star r)

/-- The apostrophe character, kept out of string literals. -/
def apos : Char := Char.ofNat 39

/-- The alternation `(?:is|are|was|were|do|does|did|will|would|can|could)`. -/
def qVerbs : RE :=
  rwords ["is", "are", "was", "were", "do", "does", "did", "will", "would", "can", "could"]

/-- The alternation `(?:is|are|was|were|will|would|could|should|might|may)`. -/
def beModals : RE :=
  rwords ["is", "are", "was", "were", "will", "would", "could", "should", "might", "may"]

/-- Stressed patterns for "there" (dictionary.py lines 165-174). -/
def thereStressed : List RE :=
  [rcat [RE.wb, rwords ["over", "right", "up", "down", "out"], rplus wsCls,
     rstr "there", RE.wb],
   rcat [RE.wb, rstr "there", rplus wsCls,
     rwords ["it", "he", "she", "they", "are", "is", "was", "were"], RE.wb],
   rcat [RE.wb, rstr "there", RE.ch apos, rstr "s", rplus wsCls,
     rwords ["the", "a", "an", "my", "your", "his", "her", "our", "their"], RE.wb],
   rcat [RE.wb, rstr "there", RE.star wsCls, RE.ch ',', RE.star wsCls,
     rstr "there", RE.wb],
   rcat [RE.wb, rstr "there", rplus wsCls, rstr "you", rplus wsCls, rstr "go", RE.wb]]

/-- Unstressed patterns for "there" (dictionary.py lines 175-181). -/
def thereUnstressed : List RE :=
  [rcat [RE.bos, rstr "there", rplus wsCls, beModals, RE.wb],
   rcat [RE.cls ['.', '!', '?'], rplus wsCls, rstr "there", rplus wsCls, beModals, RE.wb],
   rcat [RE.wb, rstr "there", rplus wsCls, rwords ["is", "are", "was", "were"],
     rplus wsCls, rwords ["a", "an", "some", "many", "few", "several", "no"], RE.wb]]

/-- Stressed patterns for "here" (dictionary.py lines 184-190). -/
def hereStressed : List RE :=
  [rcat [RE.wb, rwords ["over", "right", "up", "down", "out"], rplus wsCls,
     rstr "here", RE.wb],
   rcat [RE.wb, rstr "here", rplus wsCls,
     rwords ["it", "he", "she", "they", "are", "is", "was", "were"], RE.wb],
   rcat [RE.wb, rstr "come", rplus wsCls, rstr "here", RE.wb],
   rcat [RE.wb, rstr "here", rplus wsCls, rstr "you", rplus wsCls, rstr "go", RE.wb]]

/-- Unstressed patterns for "here" (dictionary.py lines 191-194). -/
def hereUnstressed : List RE :=
  [rcat [RE.wb, rstr "here", rplus wsCls, rstr "and", rplus wsCls, rstr "there", RE.wb]]

/-- Stressed patterns for "where" (dictionary.py lines 197-201). -/
def whereStressed : List RE :=
  [rcat [RE.wb, rstr "where", rplus wsCls, qVerbs, RE.wb],
   rcat [RE.wb, rstr "where", rplus wsCls, rstr "you", RE.wb]]

/-- Stressed patterns for "when" (dictionary.py lines 207-211). -/
def whenStressed : List RE :=
  [rcat [RE.wb, rstr "when", rplus wsCls, qVerbs, RE.wb],
   rcat [RE.wb, rstr "when", rplus wsCls, rstr "you", RE.wb]]

/-- Stressed patterns for "what" (dictionary.py lines 215-220). -/
def whatStressed : List RE :=
  [rcat [RE.wb, rstr "what", rplus wsCls, qVerbs, RE.wb],
   rcat [RE.wb, rstr "what", rplus wsCls, rwords ["a", "an", "the"], RE.wb]]

/-- Stressed patterns for "how" (dictionary.py lines 223-228). -/
def howStressed : List RE :=
  [rcat [RE.wb, rstr "how", rplus wsCls, qVerbs, RE.wb],
   rcat [RE.wb, rstr "how", rplus wsCls,
     rwords ["much", "many", "long", "far", "often"], RE.wb]]

/-- Stressed patterns for "why" (dictionary.py lines 231-236). -/
def whyStressed : List RE :=
  [rcat [RE.wb, rstr "why", rplus wsCls, qVerbs, RE.wb],
   rcat [RE.wb, rstr "why", rplus wsCls, rstr "not", RE.wb]]

/-- The `contextual_patterns` table of analyze_contextual_stress
(dictionary.py lines 163-238), as (stressed, unstressed) pattern lists. -/
def contextualPatterns (w : String) : Option (List RE × List RE) :=
  if w = "there" then some (thereStressed, thereUnstressed)
  else if w = "here" then some (hereStressed, hereUnstressed)
  else if w = "where" then some (whereStressed, [])
  else if w = "when" then some (whenStressed, [])
  else if w = "what" then some (whatStressed, [])
  else if w = "how" then some (howStressed, [])
  else if w = "why" then some (whyStressed, [])
  else none

/-- The `defaults` dict of analyze_contextual_stress (lines 258-268):
`defaults.get(word_lower, True)` as a keyed case split — every listed word
maps to True, and the `.get` fallback is True as well. -/
def contextualDefault (w : String) : Bool :=
  if w = "there" then true
  else if w = "here" then true
  else if w = "where" then true
  else if w = "when" then true
  else if w = "what" then true
  else if w = "how" then true
  else if w = "why" then true
  else true

set_option linter.unusedVariables false in
/-- dictionary.py analyze_contextual_stress (lines 148-268).  The
`position` argument is accepted and, as in the source, never read. -/
def analyze_contextual_stress (word context : String) (position : Int) : Option Bool :=
  let word_lower := strTrim (strToLower word)
  match contextualPatterns word_lower with
  | none => none
  | some pats =>
    let context_lower := strToLower context
    if pats.2.any fun r => research r context_lower then some false
    else if pats.1.any fun r => research r context_lower then some true
    else some (contextualDefault word_lower)

/-- A well-formed ARPAbet phoneme as found in the shipped CMU dictionary
file: a nonempty uppercase base followed by a stress digit 0-2 exactly
when the base is one of the fifteen vowel symbols.  The file itself is
data outside src/, so theorems about dictionary-resolved words assume the
oracle only serves entries whose phonemes have this shape. -/
def wfPhoneme (p : String) : Bool :=
  let base := p.data.takeWhile isUpperCh
  let rest := p.data.dropWhile isUpperCh
  (!base.isEmpty) &&
    (if VOWELS.contains (String.mk base) then
      rest == ['0'] || rest == ['1'] || rest == ['2']
     else rest == [])

/-- An entry as `_load_dictionary` would have built it from well-formed
phonemes: the stored syllables are the ones `_phonemes_to_syllables`
computes, and every phoneme is well formed. -/
def wfEntry (e : StressPattern) : Prop :=
  e.syllables = phonemes_to_syllables e.word e.phonemes ∧
    ∀ p ∈ e.phonemes, wfPhoneme p = true

/-- The dictionary oracle only serves well-formed load-time entries. -/
def wfCmu (cmu : String → Option StressPattern) : Prop :=
  ∀ w e, cmu w = some e → wfEntry e

/-- The monosyllable rule order as the specification states it: negation
first, then existential vs locative "there" by the next token, then
phrasal-verb particles, then the closed-class / open-class / default
part-of-speech split.  Written from the claim wording, to be compared
with `analyze_monosyllable_stress`. -/
def monosyllableRuleSpec (token : Token) (next? : Option Token) : Nat × String :=
  let word := strToLower token.text
  if word = "not" ∨ strEndsWith token.text (String.mk ['n', apos, 't']) then
    (1, "negation_stressed")
  else if word = "there" then
    match next? with
    | some nt =>
      if nt.lemma_ = "be" ∧ nt.pos ∈ ["AUX", "VERB"] then
        (0, "existential_there_unstressed")
      else (1, "locative_there_stressed")
    | none => (1, "locative_there_stressed")
  else if token.dep = "prt" then (1, "phrasal_verb_particle_stressed")
  else if token.pos ∈ ["DET", "PRON", "ADP", "AUX", "PART", "CCONJ", "SCONJ"] then
    (0, "function_word_unstressed_" ++ strToLower token.pos)
  else if token.pos ∈ ["NOUN", "VERB", "ADJ", "ADV", "INTJ"] then
    (1, "content_word_stressed_" ++ strToLower token.pos)
  else (0, "default_unstressed_" ++ strToLower token.pos)

/-- The syllable-to-character alignment as the specification states it:
vowel indices; unchanged when counts match; for too many vowels first a
trailing silent-e drop (word ends in "e" and more than one vowel index),
then, if still too many, `syllableCount` indices spaced evenly across the
vowel-index list; for too few, pad by repeating the last vowel index until
the counts match.  Written from the claim wording, to be compared with
`map_syllables_to_chars`. -/
def alignToCharactersSpec (word : String) (n : Nat) : List Nat :=
  let vp := vowelIdxs word
  if vp.isEmpty then []
  else if vp.length = n then vp
  else if n < vp.length then
    let vp2 :=
      if strEndsWith word ("e") = true ∧ 1 < vp.length then vp.dropLast else vp
    if n < vp2.length then
      (List.range n).map fun i => vp2.getD ((i * vp2.length) / n) 0
    else vp2
  else vp ++ List.replicate (n - vp.length) (vp.getLast?.getD 0)

/-- The 1-based positions, in the full input list, of the lines that are
non-blank after trimming, starting the count at `n`; this is what the
batch endpoint actually emits as `line_number` values. -/
def nonBlankNumbersFrom : Nat → List String → List Nat
  | _, [] => []
  | n, t :: rest =>
    if strTrim t = "" then nonBlankNumbersFrom (n + 1) rest
    else n :: nonBlankNumbersFrom (n + 1) rest

/-! Theorems.  Helper lemmas come first; the claim theorems are named
`claim_Cn...`. -/

theorem length_filterMap_eq_countP {α β : Type} (f : α → Option β) (l : List α) :
    (l.filterMap f).length = l.countP fun a => (f a).isSome := by
  induction l with
  | nil => rfl
  | cons a l ih => cases h : f a <;> simp [List.filterMap_cons, h, List.countP_cons, ih]

theorem extract_stress_pattern_length (ps : List String) :
    (extract_stress_pattern ps).length = ps.countP phonemeEndsDigit := by
  unfold extract_stress_pattern
  rw [length_filterMap_eq_countP]
  apply List.countP_congr
  intro p _
  cases h : p.data.getLast? with
  | none => simp [phonemeEndsDigit, h]
  | some c => by_cases hd : isDigitCh c = true <;> simp [phonemeEndsDigit, h, hd]

theorem phonemes_to_syllables_length (word : String) (ps : List String) :
    (phonemes_to_syllables word ps).length =
      if ps.countP phonemeEndsDigit ≤ 1 then 1 else ps.countP phonemeEndsDigit := by
  by_cases h : ps.countP phonemeEndsDigit ≤ 1 <;> simp [phonemes_to_syllables, h]

/-- Claim C4 (confirmed): the prosodic smoothing scan, at each window of
three consecutive positive digits, zeroes the middle digit exactly when it
is 1 (a 2 is left untouched) and advances past the whole window, and
advances by one position otherwise; `[1,1,1]` becomes `[1,0,1]` and
`[1,2,1]` is unchanged. -/
theorem claim_C4_smoothing_scan :
    (∀ a b c rest, 0 < a → 0 < b → 0 < c →
      smoothStressSequence (a :: b :: c :: rest) =
        a :: (if b = 1 then 0 else b) :: c :: smoothStressSequence rest) ∧
    (∀ a b c rest, ¬(0 < a ∧ 0 < b ∧ 0 < c) →
      smoothStressSequence (a :: b :: c :: rest) =
        a :: smoothStressSequence (b :: c :: rest)) ∧
    smoothStressSequence [1, 1, 1] = [1, 0, 1] ∧
    smoothStressSequence [1, 2, 1] = [1, 2, 1] := by
  refine ⟨?_, ?_, by decide, by decide⟩
  · intro a b c rest ha hb hc
    rw [smoothStressSequence]
    simp [ha, hb, hc]
  · intro a b c rest h
    rw [smoothStressSequence]
    simp [h]

theorem claim_C4_witness :
    smoothStressSequence [1, 1, 1] = 1 :: (if 1 = 1 then 0 else 1) :: 1 :: smoothStressSequence [] ∧
    smoothStressSequence [2, 0, 2, 5] = 2 :: smoothStressSequence [0, 2, 5] :=
  ⟨claim_C4_smoothing_scan.1 1 1 1 [] (by decide) (by decide) (by decide),
   claim_C4_smoothing_scan.2.1 2 0 2 [5] (by decide)⟩

/-- Claim C2 (confirmed): the prosodic smoothing pass has no observable
effect on the value analyze_text returns — it only builds and edits a
local copy of the concatenated digit sequence, so the analyses list is
returned unchanged and the whole result equals the one computed with the
smoothing call deleted. -/
theorem claim_C2_smoothing_no_effect :
    (∀ word_analyses, apply_prosodic_smoothing word_analyses = word_analyses) ∧
    ∀ cmu g2p tokens text elapsedMs,
      analyze_text cmu g2p tokens text elapsedMs =
        analyze_text_unsmoothed cmu g2p tokens text elapsedMs := by
  constructor
  · intro ws; rfl
  · intro cmu g2p tokens text e
    simp [analyze_text, analyze_text_unsmoothed, apply_prosodic_smoothing]

/-- Claim C10 (confirmed): the `position` argument of
analyze_contextual_stress has no effect on its result. -/
theorem claim_C10_position_irrelevant :
    ∀ (word context : String) (p1 p2 : Int),
      analyze_contextual_stress word context p1 =
        analyze_contextual_stress word context p2 :=
  fun _ _ _ _ => rfl

theorem batchLoop_line_numbers (cmu : String → Option StressPattern)
    (g2p : String → List String) (nlp : String → List Token) :
    ∀ (lines : List String) (n : Nat),
      (batchLoop cmu g2p nlp n lines).map LineResult.line_number =
        nonBlankNumbersFrom n lines := by
  intro lines
  induction lines with
  | nil => intro n; rfl
  | cons t rest ih =>
    intro n
    by_cases h : strTrim t = "" <;> simp [batchLoop, nonBlankNumbersFrom, h, ih]

theorem batchLoop_length (cmu : String → Option StressPattern)
    (g2p : String → List String) (nlp : String → List Token) :
    ∀ (lines : List String) (n : Nat),
      (batchLoop cmu g2p nlp n lines).length =
        lines.countP fun t => !(strTrim t == "") := by
  intro lines
  induction lines with
  | nil => intro n; rfl
  | cons t rest ih =>
    intro n
    by_cases h : strTrim t = "" <;> simp [batchLoop, List.countP_cons, h, ih]

/-- Claim C3, counterexample: on `["Walking down the street", "",
"Feeling so complete"]` the batch endpoint returns exactly 2 line results
but numbers them 1 and 3 — the skipped blank line consumes a number — not
1 and 2 as claimed. -/
theorem claim_C3_counterexample :
    ((analyze_batch_stress (fun _ => none) (fun _ => []) (fun _ => [])
        ["Walking down the street", "", "Feeling so complete"]).lines.map
      LineResult.line_number) = [1, 3] ∧
    ((analyze_batch_stress (fun _ => none) (fun _ => []) (fun _ => [])
        ["Walking down the street", "", "Feeling so complete"]).lines.map
      LineResult.line_number) ≠ [1, 2] ∧
    (analyze_batch_stress (fun _ => none) (fun _ => []) (fun _ => [])
        ["Walking down the street", "", "Feeling so complete"]).total_lines = 2 := by
  refine ⟨by decide, by decide, by decide⟩

/-- Claim C3 as amended: batch analysis produces exactly one line result
per line that is non-blank after trimming (blank lines are skipped), but
the `line_number` values are the 1-based positions of those lines in the
full input list — a skipped blank line still consumes a number. -/
theorem claim_C3_amended :
    ∀ cmu g2p nlp (lines : List String),
      (analyze_batch_stress cmu g2p nlp lines).total_lines =
        (lines.countP fun t => !(strTrim t == "")) ∧
      (analyze_batch_stress cmu g2p nlp lines).lines.map LineResult.line_number =
        nonBlankNumbersFrom 1 lines := by
  intro cmu g2p nlp lines
  exact ⟨batchLoop_length cmu g2p nlp lines 1, batchLoop_line_numbers cmu g2p nlp lines 1⟩

/-- Claim C7, counterexample: the entry built from the dictionary line
`"HM  HH M"` (no digit-bearing phoneme) has `stress_pattern = []` of
length 0 but `syllables = ["hm"]` of length 1, so the claimed length
equality fails for it. -/
theorem claim_C7_counterexample :
    (load_entry_of_line ("HM  HH M")).map
        (fun e => decide (e.stress_pattern.length = e.syllables.length)) =
      some false := by decide

/-- Claim C7 as amended: for every entry built at load time,
`len(stress_pattern) == len(syllables)` holds whenever the phonemes
contain at least one digit-bearing (vowel) phoneme; an entry with none
gets `stress_pattern = []` (length 0) and the single whole word as its
only syllable (length 1). -/
theorem claim_C7_amended :
    ∀ (word_key : String) (phonemes : List String),
      (0 < phonemes.countP phonemeEndsDigit →
        (mk_dict_entry word_key phonemes).stress_pattern.length =
          (mk_dict_entry word_key phonemes).syllables.length) ∧
      (phonemes.countP phonemeEndsDigit = 0 →
        (mk_dict_entry word_key phonemes).stress_pattern = [] ∧
        (mk_dict_entry word_key phonemes).syllables = [word_key]) := by
  intro w ps
  constructor
  · intro h
    show (extract_stress_pattern ps).length = (phonemes_to_syllables w ps).length
    rw [extract_stress_pattern_length, phonemes_to_syllables_length]
    split
    · omega
    · rfl
  · intro h
    refine ⟨?_, ?_⟩
    · have hl := extract_stress_pattern_length ps
      rw [h] at hl
      exact List.length_eq_zero.mp hl
    · show phonemes_to_syllables w ps = [w]
      simp [phonemes_to_syllables, h]

theorem claim_C7_witness :
    0 < (["HH", "AH0", "L", "OW1"] : List String).countP phonemeEndsDigit ∧
    (mk_dict_entry ("hello") ["HH", "AH0", "L", "OW1"]).stress_pattern.length =
      (mk_dict_entry ("hello") ["HH", "AH0", "L", "OW1"]).syllables.length :=
  ⟨by decide, (claim_C7_amended ("hello") ["HH", "AH0", "L", "OW1"]).1 (by decide)⟩

/-- Claim C6 (confirmed): the monosyllable classifier applies its rules in
exactly the stated precedence order — negation, existential/locative
"there" by the next token, phrasal-verb particle, then the closed-class /
open-class / default part-of-speech split — returning the stated
(stress, reasoning) pairs. -/
theorem claim_C6_monosyllable_rules :
    ∀ (token : Token) (next? : Option Token),
      analyze_monosyllable_stress token next? = monosyllableRuleSpec token next? := by
  intro t n
  unfold analyze_monosyllable_stress monosyllableRuleSpec
  cases n with
  | none => simp [apos]
  | some nt => simp [apos, List.mem_cons]

theorem contextualPatterns_none_iff (s : String) :
    contextualPatterns s = none ↔
      s ∉ (["there", "here", "where", "when", "what", "how", "why"] : List String) := by
  unfold contextualPatterns
  split_ifs with h1 h2 h3 h4 h5 h6 h7 <;> simp_all

theorem contextualDefault_true (s : String) : contextualDefault s = true := by
  unfold contextualDefault
  split_ifs <;> rfl

/-- Claim C5 (confirmed): analyze_contextual_stress returns None exactly
when the lower-cased trimmed word is outside the closed set
{there, here, where, when, what, how, why}; for a word of the set it
returns False when some unstressed pattern matches the lower-cased
context (unstressed patterns are tested first), True when no unstressed
but some stressed pattern matches, and True (the default of all seven
words) when neither matches; and on the two concrete examples it returns
False for "There is a house" and True for "I love it over there". -/
theorem claim_C5_contextual :
    (∀ (w c : String) (p : Int),
      analyze_contextual_stress w c p = none ↔
        strTrim (strToLower w) ∉
          (["there", "here", "where", "when", "what", "how", "why"] : List String)) ∧
    (∀ (w c : String) (p : Int) (sp up : List RE),
      contextualPatterns (strTrim (strToLower w)) = some (sp, up) →
      analyze_contextual_stress w c p =
        some (if up.any (fun r => research r (strToLower c)) then false
          else if sp.any (fun r => research r (strToLower c)) then true
          else true)) ∧
    analyze_contextual_stress "there" "There is a house" 0 = some false ∧
    analyze_contextual_stress "there" "I love it over there" 0 = some true := by
  refine ⟨?_, ?_, by decide, by decide⟩
  · intro w c p
    rw [← contextualPatterns_none_iff]
    rcases h : contextualPatterns (strTrim (strToLower w)) with _ | pats
    · simp [analyze_contextual_stress, h]
    · simp only [analyze_contextual_stress, h]
      split_ifs <;> simp
  · intro w c p sp up h
    simp only [analyze_contextual_stress, h, contextualDefault_true]
    split_ifs <;> rfl

theorem claim_C5_witness :
    analyze_contextual_stress "here" ("Over here") 0 =
      some (if hereUnstressed.any (fun r => research r (strToLower ("Over here"))) then false
        else if hereStressed.any (fun r => research r (strToLower ("Over here"))) then true
        else true) :=
  claim_C5_contextual.2.1 "here" ("Over here") 0 hereStressed hereUnstressed rfl

theorem padLastUntil_eq (n : Nat) (l : List Nat) :
    padLastUntil l n = l ++ List.replicate (n - l.length) (l.getLast?.getD 0) := by
  generalize hk : n - l.length = k
  induction k generalizing l with
  | zero =>
    rw [padLastUntil]
    have h : ¬l.length < n := by omega
    simp [h, hk]
  | succ k ih =>
    rw [padLastUntil]
    have hlt : l.length < n := by omega
    rw [if_pos hlt]
    rw [ih (l ++ [l.getLast?.getD 0]) (by simp; omega)]
    have hx : (l ++ [l.getLast?.getD 0]).getLast?.getD 0 = l.getLast?.getD 0 := by simp
    rw [hx]
    simp [List.replicate_succ]

/-- Claim C9 (confirmed): map_syllables_to_chars behaves exactly as the
specification describes — empty result for vowelless words, identity when
vowel count equals the syllable count, silent-e drop then evenly spaced
resampling (indices rounded down) when there are too many vowels, and
last-index padding when there are too few.  The hypothesis `1 ≤ n`
reflects the call sites: syllable counts are always at least one (the
Python code would divide by zero otherwise). -/
theorem claim_C9_alignment :
    ∀ (word : String) (n : Nat), 1 ≤ n →
      map_syllables_to_chars word n = alignToCharactersSpec word n := by
  intro w n hn
  unfold map_syllables_to_chars alignToCharactersSpec
  simp only [List.isEmpty_iff]
  by_cases h0 : vowelIdxs w = []
  · simp [h0]
  · by_cases h1 : (vowelIdxs w).length = n
    · simp [h0, h1]
    · by_cases h2 : n < (vowelIdxs w).length
      · by_cases he : strEndsWith w ("e") = true ∧ 1 < (vowelIdxs w).length
        · by_cases h3 : n < (vowelIdxs w).length - 1
          · simp [h0, h1, h2, he, h3, List.length_dropLast]
          · have hlen : (vowelIdxs w).dropLast.length = n := by
              rw [List.length_dropLast]
              omega
            simp [h0, h1, h2, he, h3, List.length_dropLast,
              List.take_of_length_le (le_of_eq hlen)]
        · simp [h0, h1, h2, he]
      · have h4 : (vowelIdxs w).length < n := by omega
        simp only [h0, h1, h2, if_false, ite_false, if_neg, not_false_iff]
        rw [padLastUntil_eq]
        exact List.take_of_length_le (by simp; omega)

theorem claim_C9_witness :
    1 ≤ 3 ∧ map_syllables_to_chars ("banana") 3 = alignToCharactersSpec ("banana") 3 ∧
      map_syllables_to_chars ("banana") 3 = [1, 3, 5] :=
  ⟨by decide, claim_C9_alignment ("banana") 3 (by decide), by decide⟩

theorem analyzeTokens_mem {cmu : String → Option StressPattern}
    {g2p : String → List String} :
    ∀ {ts : List Token} {wa : WordAnalysis}, wa ∈ analyzeTokens cmu g2p ts →
      ∃ t next?, wa = analyzeToken cmu g2p t next? := by
  intro ts
  induction ts with
  | nil => intro wa h; simp [analyzeTokens] at h
  | cons t rest ih =>
    intro wa h
    rw [analyzeTokens] at h
    by_cases hc : strTrim t.text = "" ∨ t.is_punct = true
    · rw [if_pos hc] at h
      exact ih h
    · rw [if_neg hc] at h
      rcases List.mem_cons.mp h with h | h
      · exact ⟨t, rest.head?, h⟩
      · exact ih h

theorem strStartsWith_append_false (s t p : String) (h4 : p.data.length ≤ s.data.length)
    (hne : s.data.take p.data.length ≠ p.data) :
    strStartsWith (s ++ t) p = false := by
  unfold strStartsWith
  rw [String.data_append]
  rw [List.take_append_of_le_length h4]
  exact beq_eq_false_iff_ne.mpr hne

theorem mono_reasoning_not_cmu (t : Token) (n? : Option Token) :
    strStartsWith (analyze_monosyllable_stress t n?).2 ("cmu_") = false := by
  have hfn : ∀ s, strStartsWith ("function_word_unstressed_" ++ s) ("cmu_") = false :=
    fun s => strStartsWith_append_false _ s _ (by decide) (by decide)
  have hct : ∀ s, strStartsWith ("content_word_stressed_" ++ s) ("cmu_") = false :=
    fun s => strStartsWith_append_false _ s _ (by decide) (by decide)
  have hdf : ∀ s, strStartsWith ("default_unstressed_" ++ s) ("cmu_") = false :=
    fun s => strStartsWith_append_false _ s _ (by decide) (by decide)
  cases n? <;> simp only [analyze_monosyllable_stress] <;> split_ifs <;>
    first
      | decide
      | exact hfn _
      | exact hct _
      | exact hdf _

theorem classifyToken_cmu_iff (cmu : String → Option StressPattern)
    (g2p : String → List String) (t : Token) (n? : Option Token) :
    strStartsWith (classifyToken cmu g2p t n?).2.2 ("cmu_") = true ↔
      ((cmu_lookup cmu (strToLower t.text)).isSome = true ∧
        2 ≤ (classifyToken cmu g2p t n?).1.length) := by
  unfold classifyToken
  by_cases h1 :
      (if extract_stress_digits (get_phonemes cmu g2p t.text) = [] then 1
        else (extract_stress_digits (get_phonemes cmu g2p t.text)).length) = 1
  · rw [if_pos h1]
    simp [mono_reasoning_not_cmu]
  · rw [if_neg h1]
    have hne : extract_stress_digits (get_phonemes cmu g2p t.text) ≠ [] := by
      intro hcontra
      rw [if_pos hcontra] at h1
      exact h1 rfl
    have hlen : 2 ≤ (extract_stress_digits (get_phonemes cmu g2p t.text)).length := by
      rw [if_neg hne] at h1
      have : 1 ≤ (extract_stress_digits (get_phonemes cmu g2p t.text)).length :=
        Nat.one_le_iff_ne_zero.mpr (by simpa using hne)
      omega
    rw [if_pos hne]
    cases hl : cmu_lookup cmu (strToLower t.text) with
    | none =>
      have hg : strStartsWith ("g2p_fallback_multisyllable") ("cmu_") = false := by decide
      simp [hl, hg]
    | some e =>
      have hc : strStartsWith ("cmu_dictionary_multisyllable") ("cmu_") = true := by decide
      simp [hl, hc, hlen]

theorem confidences_ne : fallbackConfidence ≠ cmuConfidence := by
  norm_num [fallbackConfidence, cmuConfidence]

/-- Claim C8, counterexample: the monosyllabic word "the" is resolved via
the static dictionary (the lookup succeeds), yet its WordAnalysis gets the
fallback confidence 0.8 rather than the claimed 0.95, because the
confidence test keys on the reasoning tag and the monosyllable branch
never emits a `cmu_` tag. -/
theorem claim_C8_counterexample :
    ((analyzeTokens
        (fun k => if k = "the" then some (mk_dict_entry ("the") ["DH", "AH0"]) else none)
        (fun _ => []) [⟨"the", "DET", "det", "the", false⟩]).map
      WordAnalysis.confidence) = [fallbackConfidence] ∧
    (cmu_lookup
        (fun k => if k = "the" then some (mk_dict_entry ("the") ["DH", "AH0"]) else none)
        (strToLower "the")).isSome = true ∧
    fallbackConfidence ≠ cmuConfidence :=
  ⟨rfl, rfl, confidences_ne⟩

/-- Claim C8 as amended: every WordAnalysis carries confidence 0.95 or
0.8, and it carries 0.95 exactly when the word is multisyllabic (at least
two stress digits) and resolved via the static dictionary — i.e. when the
reasoning is the dictionary-multisyllable tag; monosyllabic words get 0.8
even when their phonemes come from the dictionary, as do all G2P and
heuristic analyses. -/
theorem claim_C8_amended :
    ∀ (cmu : String → Option StressPattern) (g2p : String → List String)
      (tokens : List Token) (wa : WordAnalysis), wa ∈ analyzeTokens cmu g2p tokens →
      (wa.confidence = cmuConfidence ∨ wa.confidence = fallbackConfidence) ∧
      (wa.confidence = cmuConfidence ↔
        ((cmu_lookup cmu (strToLower wa.word)).isSome = true ∧
          2 ≤ wa.stress_pattern.length)) := by
  intro cmu g2p tokens wa hmem
  obtain ⟨t, n?, rfl⟩ := analyzeTokens_mem hmem
  have hword : (analyzeToken cmu g2p t n?).word = t.text := rfl
  have hstress : (analyzeToken cmu g2p t n?).stress_pattern = (classifyToken cmu g2p t n?).1 :=
    rfl
  have hconf : (analyzeToken cmu g2p t n?).confidence =
      if strStartsWith (classifyToken cmu g2p t n?).2.2 ("cmu_") then cmuConfidence
      else fallbackConfidence := rfl
  by_cases hb : strStartsWith (classifyToken cmu g2p t n?).2.2 ("cmu_") = true
  · constructor
    · left
      rw [hconf, if_pos hb]
    · rw [hconf, if_pos hb, hword, hstress]
      simp only [eq_self_iff_true, true_iff]
      exact (classifyToken_cmu_iff cmu g2p t n?).mp hb
  · constructor
    · right
      rw [hconf, if_neg hb]
    · rw [hconf, if_neg hb, hword, hstress]
      constructor
      · intro hcontra
        exact absurd hcontra confidences_ne
      · intro hrhs
        exact absurd ((classifyToken_cmu_iff cmu g2p t n?).mpr hrhs) hb

theorem claim_C8_amended_witness :
    (analyzeToken (fun _ => none) (fun _ => []) ⟨"love", "NOUN", "", "love", false⟩
        none).confidence = cmuConfidence ∨
    (analyzeToken (fun _ => none) (fun _ => []) ⟨"love", "NOUN", "", "love", false⟩
        none).confidence = fallbackConfidence := by
  have hmem : analyzeToken (fun _ => none) (fun _ => [])
      ⟨"love", "NOUN", "", "love", false⟩ none ∈
      analyzeTokens (fun _ => none) (fun _ => [])
        [⟨"love", "NOUN", "", "love", false⟩] := by
    have heq : analyzeTokens (fun _ => none) (fun _ => [])
        [⟨"love", "NOUN", "", "love", false⟩] =
        [analyzeToken (fun _ => none) (fun _ => [])
          ⟨"love", "NOUN", "", "love", false⟩ none] := rfl
    rw [heq]
    exact List.mem_singleton_self _
  exact (claim_C8_amended (fun _ => none) (fun _ => [])
    [⟨"love", "NOUN", "", "love", false⟩] _ hmem).1

theorem vowelIdxsAux_mem_bounds :
    ∀ (cs : List Char) (i x : Nat), x ∈ vowelIdxsAux cs i → i ≤ x ∧ x < i + cs.length := by
  intro cs
  induction cs with
  | nil => intro i x h; simp [vowelIdxsAux] at h
  | cons c cs ih =>
    intro i x h
    rw [vowelIdxsAux] at h
    by_cases hv : isVowelLetter c = true
    · rw [if_pos hv] at h
      rcases List.mem_cons.mp h with h | h
      · subst h
        simp
      · have hb := ih (i + 1) x h
        simp only [List.length_cons]
        omega
    · rw [if_neg hv] at h
      have hb := ih (i + 1) x h
      simp only [List.length_cons]
      omega

theorem vowelIdxsAux_pairwise :
    ∀ (cs : List Char) (i : Nat), List.Pairwise (· < ·) (vowelIdxsAux cs i) := by
  intro cs
  induction cs with
  | nil => intro i; simp [vowelIdxsAux]
  | cons c cs ih =>
    intro i
    rw [vowelIdxsAux]
    by_cases hv : isVowelLetter c = true
    · rw [if_pos hv]
      refine List.Pairwise.cons ?_ (ih (i + 1))
      intro y hy
      have hb := vowelIdxsAux_mem_bounds cs (i + 1) y hy
      omega
    · rw [if_neg hv]
      exact ih (i + 1)

theorem vowelIdxs_lt_length (w : String) : ∀ x ∈ vowelIdxs w, x < w.data.length :=
  fun x h => by
    have hb := vowelIdxsAux_mem_bounds w.data 0 x h
    omega

theorem vowelIdxs_getD_lt (w : String) (k : Nat) (h : k < (vowelIdxs w).length) :
    (vowelIdxs w).getD k 0 < w.data.length := by
  rw [List.getD_eq_get _ _ h]
  exact vowelIdxs_lt_length w _ (List.get_mem _ _ _)

theorem vowelIdxs_getD_mono (w : String) (k : Nat) (h : k + 1 < (vowelIdxs w).length) :
    (vowelIdxs w).getD k 0 < (vowelIdxs w).getD (k + 1) 0 := by
  have hp : List.Pairwise (· < ·) (vowelIdxs w) := vowelIdxsAux_pairwise w.data 0
  rw [List.getD_eq_get _ _ (by omega), List.getD_eq_get _ _ h]
  exact List.pairwise_iff_get.mp hp ⟨k, by omega⟩ ⟨k + 1, h⟩ (by simp)

theorem map_syllables_to_chars_length (w : String) (n : Nat) :
    (map_syllables_to_chars w n).length = if vowelIdxs w = [] then 0 else n := by
  unfold map_syllables_to_chars
  by_cases h0 : vowelIdxs w = []
  · simp [h0]
  · by_cases h1 : (vowelIdxs w).length = n
    · simp [h0, h1]
    · by_cases h2 : n < (vowelIdxs w).length
      · by_cases he : strEndsWith w ("e") = true ∧ 1 < (vowelIdxs w).length
        · by_cases h3 : n < (vowelIdxs w).length - 1
          · simp [h0, h1, h2, he, h3, List.length_dropLast]
          · simp only [h0, h1, h2, if_true, if_false, ite_true, ite_false,
              if_neg, not_false_iff]
            simp only [if_pos he]
            rw [List.length_dropLast, if_neg h3]
            rw [List.length_take, List.length_dropLast]
            omega
        · simp [h0, h1, h2, he]
      · have h4 : (vowelIdxs w).length < n := by omega
        simp only [h0, h1, h2, if_true, if_false, ite_true, ite_false, if_neg,
          not_false_iff]
        rw [padLastUntil_eq, List.length_take, List.length_append,
          List.length_replicate]
        omega

theorem strMk_data (s : String) : String.mk s.data = s := by
  cases s
  rfl

theorem upperCh_not_space {c : Char} (h : isUpperCh c = true) : isSpaceCh c = false := by
  simp only [isUpperCh, Bool.and_eq_true, decide_eq_true_eq] at h
  rw [Bool.eq_false_iff]
  intro hc
  simp only [isSpaceCh, Bool.or_eq_true, decide_eq_true_eq] at hc
  omega

theorem upperCh_not_digit {c : Char} (h : isUpperCh c = true) : isDigitCh c = false := by
  simp only [isUpperCh, Bool.and_eq_true, decide_eq_true_eq] at h
  rw [Bool.eq_false_iff]
  intro hc
  simp only [isDigitCh, Bool.and_eq_true, decide_eq_true_eq] at hc
  omega

theorem pySplitAccum_push :
    ∀ (tok rest acc : List Char), (∀ c ∈ tok, isSpaceCh c = false) →
      pySplitAccum (tok ++ rest) acc = pySplitAccum rest (tok.reverse ++ acc) := by
  intro tok
  induction tok with
  | nil => intro rest acc _; simp
  | cons c t ih =>
    intro rest acc h
    have hc : isSpaceCh c = false := h c (by simp)
    rw [List.cons_append, pySplitAccum]
    rw [if_neg (by simp [hc])]
    rw [ih rest (c :: acc) (fun d hd => h d (by simp [hd]))]
    simp

theorem pySplitChars_joinSpaceChars :
    ∀ ps : List (List Char),
      (∀ x ∈ ps, x ≠ [] ∧ ∀ c ∈ x, isSpaceCh c = false) →
      pySplitChars (joinSpaceChars ps) = ps := by
  intro ps
  induction ps with
  | nil => intro _; rfl
  | cons x ps ih =>
    intro h
    obtain ⟨hx, hxs⟩ := h x (by simp)
    cases ps with
    | nil =>
      show pySplitChars (joinSpaceChars [x]) = [x]
      rw [joinSpaceChars]
      unfold pySplitChars
      rw [← List.append_nil x, pySplitAccum_push x [] [] hxs]
      rw [pySplitAccum]
      rw [if_neg (by simp [hx])]
      simp
    | cons y ps' =>
      show pySplitChars (joinSpaceChars (x :: y :: ps')) = x :: y :: ps'
      rw [joinSpaceChars]
      unfold pySplitChars
      rw [pySplitAccum_push x (' ' :: joinSpaceChars (y :: ps')) [] hxs]
      rw [pySplitAccum]
      rw [if_pos (by decide)]
      rw [if_neg (by simp [hx])]
      have htail := ih (fun z hz => h z (by simp [hz]))
      unfold pySplitChars at htail
      rw [htail]
      simp

theorem pySplit_joinSpace (ps : List String)
    (h : ∀ p ∈ ps, p.data ≠ [] ∧ ∀ c ∈ p.data, isSpaceCh c = false) :
    pySplit (joinSpace ps) = ps := by
  unfold pySplit joinSpace
  have hd : (String.mk (joinSpaceChars (ps.map String.data))).data =
      joinSpaceChars (ps.map String.data) := rfl
  rw [hd]
  rw [pySplitChars_joinSpaceChars (ps.map String.data) ?side]
  case side =>
    intro x hx
    obtain ⟨p, hp, rfl⟩ := List.mem_map.mp hx
    exact h p hp
  rw [List.map_map]
  have : (String.mk ∘ String.data) = id := by
    funext s
    exact strMk_data s
  rw [this, List.map_id]

theorem extract_stress_digits_joinSpace (ps : List String)
    (h : ∀ p ∈ ps, p.data ≠ [] ∧ ∀ c ∈ p.data, isSpaceCh c = false) :
    extract_stress_digits (joinSpace ps) = ps.filterMap stressDigitOfPhoneme := by
  unfold extract_stress_digits
  rw [pySplit_joinSpace ps h]

theorem wfPhoneme_shape (p : String) (h : wfPhoneme p = true) :
    p.data ≠ [] ∧ (∀ c ∈ p.data, isSpaceCh c = false) ∧
      (stressDigitOfPhoneme p).isSome = phonemeEndsDigit p := by
  unfold wfPhoneme at h
  rw [Bool.and_eq_true] at h
  obtain ⟨hb, hrest⟩ := h
  have hbe : (p.data.takeWhile isUpperCh).isEmpty = false := by
    cases hq : (p.data.takeWhile isUpperCh).isEmpty
    · rfl
    · rw [hq] at hb
      simp at hb
  have hbne : p.data.takeWhile isUpperCh ≠ [] := by
    intro hn
    rw [hn] at hbe
    simp at hbe
  have hsplit := List.takeWhile_append_dropWhile isUpperCh p.data
  by_cases hv : VOWELS.contains (String.mk (p.data.takeWhile isUpperCh)) = true
  · rw [if_pos hv] at hrest
    have hR : (p.data.dropWhile isUpperCh = ['0'] ∨ p.data.dropWhile isUpperCh = ['1']) ∨
        p.data.dropWhile isUpperCh = ['2'] := by
      simpa using hrest
    obtain ⟨d, hRd, hd012⟩ : ∃ d, p.data.dropWhile isUpperCh = [d] ∧
        (d = '0' ∨ d = '1' ∨ d = '2') := by
      rcases hR with (h1 | h1) | h1
      · exact ⟨'0', h1, Or.inl rfl⟩
      · exact ⟨'1', h1, Or.inr (Or.inl rfl)⟩
      · exact ⟨'2', h1, Or.inr (Or.inr rfl)⟩
    have hdd : isDigitCh d = true := by rcases hd012 with rfl | rfl | rfl <;> decide
    have hds : isSpaceCh d = false := by rcases hd012 with rfl | rfl | rfl <;> decide
    refine ⟨?_, ?_, ?_⟩
    · intro hnil
      simp [hnil] at hbne
    · intro c hc
      rw [← hsplit] at hc
      rcases List.mem_append.mp hc with hcm | hcm
      · exact upperCh_not_space (List.mem_takeWhile_imp hcm)
      · rw [hRd] at hcm
        rw [List.mem_singleton.mp hcm]
        exact hds
    · simp only [stressDigitOfPhoneme]
      rw [if_neg (by simp [hbe])]
      rw [if_pos hv]
      simp only [phonemeEndsDigit]
      rw [← hsplit, hRd]
      rw [List.getLast?_concat]
      simp [hdd]
  · rw [if_neg hv] at hrest
    have hR : p.data.dropWhile isUpperCh = [] := by simpa using hrest
    refine ⟨?_, ?_, ?_⟩
    · intro hnil
      simp [hnil] at hbne
    · intro c hc
      rw [← hsplit] at hc
      rcases List.mem_append.mp hc with hcm | hcm
      · exact upperCh_not_space (List.mem_takeWhile_imp hcm)
      · rw [hR] at hcm
        simp at hcm
    · simp only [stressDigitOfPhoneme]
      rw [if_neg (by simp [hbe])]
      rw [if_neg hv]
      simp only [phonemeEndsDigit]
      cases hlast : p.data.getLast? with
      | none => simp
      | some c =>
        have hcm : c ∈ p.data := List.mem_of_mem_getLast? hlast
        rw [← hsplit, hR, List.append_nil] at hcm
        have hnd : isDigitCh c = false := upperCh_not_digit (List.mem_takeWhile_imp hcm)
        simp [hnd]

theorem extract_digits_length_wf (ps : List String) (h : ∀ p ∈ ps, wfPhoneme p = true) :
    (extract_stress_digits (joinSpace ps)).length = ps.countP phonemeEndsDigit := by
  rw [extract_stress_digits_joinSpace ps
    (fun p hp => ⟨(wfPhoneme_shape p (h p hp)).1, (wfPhoneme_shape p (h p hp)).2.1⟩)]
  rw [length_filterMap_eq_countP]
  exact List.countP_congr (fun p hp => by rw [(wfPhoneme_shape p (h p hp)).2.2])

theorem sumLens_append (acc : List (List Char)) (x : List Char) :
    sumLens (acc ++ [x]) = sumLens acc + x.length := by
  simp [sumLens]

theorem spt_lower (vp : List Nat) (i : Nat)
    (hmono : ∀ k, k + 1 < vp.length → vp.getD k 0 < vp.getD (k + 1) 0)
    (h : i + 1 < vp.length) :
    vp.getD i 0 + 1 ≤ spt vp i := by
  unfold spt
  have hnvi : min (i + 1) (vp.length - 1) = i + 1 := by omega
  rw [hnvi]
  have h1 := hmono i h
  omega

theorem spt_upper (vp : List Nat) (i : Nat) (h : i + 1 < vp.length) :
    spt vp i ≤ vp.getD (i + 1) 0 := by
  unfold spt
  have hnvi : min (i + 1) (vp.length - 1) = i + 1 := by omega
  rw [hnvi]
  exact Nat.min_le_left _ _

theorem spt_prev_le (vp : List Nat) (i : Nat) (h1 : 1 ≤ i) (h2 : i < vp.length) :
    spt vp (i - 1) ≤ vp.getD i 0 := by
  unfold spt
  have hnvi : min (i - 1 + 1) (vp.length - 1) = i := by omega
  rw [hnvi]
  exact Nat.min_le_left _ _

theorem approxPiece_spec (w : List Char) (vp : List Nat) (n i : Nat)
    (acc : List (List Char))
    (hn : 2 ≤ n) (hm : n ≤ vp.length)
    (hmono : ∀ k, k + 1 < vp.length → vp.getD k 0 < vp.getD (k + 1) 0)
    (hbnd : ∀ k, k < vp.length → vp.getD k 0 < w.length)
    (hi : i < n)
    (hsum : sumLens acc = if i = 0 then 0 else spt vp (i - 1)) :
    approxPiece w vp n i acc ≠ [] ∧
      (i + 1 < n →
        sumLens (acc ++ [approxPiece w vp n i acc]) = spt vp i) := by
  by_cases h0 : i = 0
  · subst h0
    have hvp1 : 1 < vp.length := by omega
    have hlow := spt_lower vp 0 hmono (by omega)
    have hup : spt vp 0 ≤ vp.getD 1 0 := by simpa using spt_upper vp 0 (by omega)
    have hb1 : vp.getD 1 0 < w.length := hbnd 1 (by omega)
    have hsw : spt vp 0 ≤ w.length := by omega
    have hlen : (approxPiece w vp n 0 acc).length = spt vp 0 := by
      unfold approxPiece
      rw [if_pos rfl, if_pos hvp1]
      rw [List.length_take]
      exact Nat.min_eq_left hsw
    constructor
    · intro hnil
      rw [hnil] at hlen
      simp at hlen
      omega
    · intro _
      rw [sumLens_append, hlen, hsum]
      simp
  · rw [if_neg h0] at hsum
    have hprev_le : sumLens acc ≤ vp.getD i 0 := by
      rw [hsum]
      exact spt_prev_le vp i (by omega) (by omega)
    have hbi : vp.getD i 0 < w.length := hbnd i (by omega)
    by_cases hlast : i = n - 1
    · have hlen : (approxPiece w vp n i acc).length = w.length - sumLens acc := by
        unfold approxPiece
        rw [if_neg h0, if_pos hlast]
        rw [List.length_drop]
      constructor
      · intro hnil
        rw [hnil] at hlen
        simp at hlen
        omega
      · intro hcontra
        omega
    · have hi1 : i + 1 < vp.length := by omega
      have hlow := spt_lower vp i hmono hi1
      have hup := spt_upper vp i hi1
      have hb1 : vp.getD (i + 1) 0 < w.length := hbnd (i + 1) hi1
      have hsw : spt vp i ≤ w.length := by omega
      have hlen : (approxPiece w vp n i acc).length = spt vp i - sumLens acc := by
        unfold approxPiece
        rw [if_neg h0, if_neg hlast]
        rw [List.length_drop, List.length_take]
        rw [Nat.min_eq_left hsw]
      constructor
      · intro hnil
        rw [hnil] at hlen
        simp at hlen
        omega
      · intro _
        rw [sumLens_append, hlen]
        omega

theorem approxGo_length (w : List Char) (vp : List Nat) (n : Nat)
    (hn : 2 ≤ n) (hm : n ≤ vp.length)
    (hmono : ∀ k, k + 1 < vp.length → vp.getD k 0 < vp.getD (k + 1) 0)
    (hbnd : ∀ k, k < vp.length → vp.getD k 0 < w.length) :
    ∀ (j i : Nat) (acc : List (List Char)), n - i = j → i ≤ n →
      acc.length = i → (∀ s ∈ acc, s ≠ []) →
      (i < n → sumLens acc = if i = 0 then 0 else spt vp (i - 1)) →
      (approxGo w vp n i acc).length = n ∧
        ∀ s ∈ approxGo w vp n i acc, s ≠ [] := by
  intro j
  induction j with
  | zero =>
    intro i acc hj hi hlen hne _
    have hin : i = n := by omega
    rw [approxGo, if_neg (by omega)]
    rw [hlen, hin]
    exact ⟨rfl, hne⟩
  | succ j ih =>
    intro i acc hj hi hlen hne hsum
    have hin : i < n := by omega
    obtain ⟨hpne, hpsum⟩ :=
      approxPiece_spec w vp n i acc hn hm hmono hbnd hin (hsum hin)
    rw [approxGo, if_pos hin]
    apply ih (i + 1) (acc ++ [approxPiece w vp n i acc]) (by omega) (by omega)
    · rw [List.length_append, hlen]
      rfl
    · intro s hs
      rcases List.mem_append.mp hs with hs | hs
      · exact hne s hs
      · rw [List.mem_singleton.mp hs]
        exact hpne
    · intro hi1
      rw [hpsum hi1]
      simp only [Nat.add_sub_cancel]
      rw [if_neg (by omega)]

theorem approximate_syllables_length (word : String) (n : Nat) (hn : 1 ≤ n) :
    (approximate_syllables word n).length = n := by
  unfold approximate_syllables
  by_cases h1 : n ≤ 1
  · have hn1 : n = 1 := by omega
    simp [h1, hn1]
  · rw [if_neg h1]
    by_cases h2 : n ≤ (vowelIdxs word).length
    · rw [if_pos h2]
      obtain ⟨hlen, hne⟩ :=
        approxGo_length word.data (vowelIdxs word) n (by omega) h2
          (fun k hk => vowelIdxs_getD_mono word k hk)
          (fun k hk => vowelIdxs_getD_lt word k hk)
          n 0 [] (by omega) (by omega) rfl (by simp)
          (fun _ => by simp [sumLens])
      have hfil : (approxGo word.data (vowelIdxs word) n 0 []).filter
          (fun s => !s.isEmpty) = approxGo word.data (vowelIdxs word) n 0 [] := by
        apply List.filter_eq_self.mpr
        intro a ha
        simpa using hne a ha
      rw [hfil, List.length_map, hlen]
    · rw [if_neg h2]
      simp

theorem classifyToken_lengths (cmu : String → Option StressPattern)
    (g2p : String → List String) (t : Token) (n? : Option Token) (hwf : wfCmu cmu) :
    (classifyToken cmu g2p t n?).2.1.length = (classifyToken cmu g2p t n?).1.length ∧
      1 ≤ (classifyToken cmu g2p t n?).1.length := by
  unfold classifyToken
  by_cases h1 :
      (if extract_stress_digits (get_phonemes cmu g2p t.text) = [] then 1
        else (extract_stress_digits (get_phonemes cmu g2p t.text)).length) = 1
  · rw [if_pos h1]
    exact ⟨rfl, by simp⟩
  · rw [if_neg h1]
    have hne : extract_stress_digits (get_phonemes cmu g2p t.text) ≠ [] := by
      intro hcontra
      rw [if_pos hcontra] at h1
      exact h1 rfl
    have hlen2 : 2 ≤ (extract_stress_digits (get_phonemes cmu g2p t.text)).length := by
      rw [if_neg hne] at h1
      have h1' : 1 ≤ (extract_stress_digits (get_phonemes cmu g2p t.text)).length :=
        Nat.one_le_iff_ne_zero.mpr (by simpa using hne)
      omega
    simp only [if_pos hne, if_neg hne]
    cases hl : cmu_lookup cmu (strToLower t.text) with
    | some e =>
      have hwfe : wfEntry e := hwf _ e hl
      have hph : get_phonemes cmu g2p t.text = joinSpace e.phonemes := by
        unfold get_phonemes
        rw [hl]
      have hcount :
          (extract_stress_digits (get_phonemes cmu g2p t.text)).length =
            e.phonemes.countP phonemeEndsDigit := by
        rw [hph]
        exact extract_digits_length_wf e.phonemes hwfe.2
      have hsyll : e.syllables.length =
          if e.phonemes.countP phonemeEndsDigit ≤ 1 then 1
          else e.phonemes.countP phonemeEndsDigit := by
        rw [hwfe.1]
        exact phonemes_to_syllables_length e.word e.phonemes
      have hN2 : 2 ≤ e.phonemes.countP phonemeEndsDigit := by
        rw [hcount] at hlen2
        exact hlen2
      have hgt : ¬(e.phonemes.countP phonemeEndsDigit ≤ 1) := by omega
      refine ⟨?_, ?_⟩
      · show e.syllables.length =
          (extract_stress_digits (get_phonemes cmu g2p t.text)).length
        rw [hsyll, if_neg hgt, hcount]
      · show 1 ≤ (extract_stress_digits (get_phonemes cmu g2p t.text)).length
        omega
    | none =>
      refine ⟨?_, ?_⟩
      · show (approximate_syllables t.text
            (extract_stress_digits (get_phonemes cmu g2p t.text)).length).length =
          (extract_stress_digits (get_phonemes cmu g2p t.text)).length
        exact approximate_syllables_length t.text _ (by omega)
      · show 1 ≤ (extract_stress_digits (get_phonemes cmu g2p t.text)).length
        omega

theorem analyzeToken_lengths (cmu : String → Option StressPattern)
    (g2p : String → List String) (t : Token) (n? : Option Token) (hwf : wfCmu cmu) :
    (analyzeToken cmu g2p t n?).syllables.length =
        (analyzeToken cmu g2p t n?).stress_pattern.length ∧
      1 ≤ (analyzeToken cmu g2p t n?).stress_pattern.length ∧
      (analyzeToken cmu g2p t n?).char_positions.length =
        (if vowelIdxs t.text = [] then 0
          else (analyzeToken cmu g2p t n?).stress_pattern.length) := by
  obtain ⟨hsl, hge⟩ := classifyToken_lengths cmu g2p t n? hwf
  refine ⟨hsl, hge, ?_⟩
  exact map_syllables_to_chars_length t.text _

/-- Claim C1, counterexample: on the vowelless word "hmm" the produced
WordAnalysis has a stress pattern and syllable list of length 1 but an
empty char_positions sequence (map_syllables_to_chars returns [] when the
word has no vowel letters), so the claimed three-way length equality fails
exactly for tokens whose word contains no vowel letter. -/
theorem claim_C1_counterexample :
    ((analyzeTokens (fun _ => none) (fun _ => [])
        [⟨"hmm", "INTJ", "", "hmm", false⟩]).map
      fun wa => (wa.stress_pattern.length, wa.char_positions.length,
        wa.syllables.length)) = [(1, 0, 1)] ∧ (1 : Nat) ≠ 0 :=
  ⟨by decide, by decide⟩

/-- Claim C1 as amended: for every WordAnalysis produced by the analyzer
(over a dictionary oracle serving well-formed load-time entries),
`len(stressPattern) == len(syllables)` always holds and both are at least
1, and `len(charPositions)` equals them whenever the word contains at
least one vowel letter; for a vowelless word char_positions is empty
(length 0), so the three-way equality fails exactly there. -/
theorem claim_C1_amended :
    ∀ (cmu : String → Option StressPattern) (g2p : String → List String)
      (tokens : List Token) (wa : WordAnalysis), wfCmu cmu →
      wa ∈ analyzeTokens cmu g2p tokens →
      wa.syllables.length = wa.stress_pattern.length ∧
      1 ≤ wa.stress_pattern.length ∧
      wa.char_positions.length =
        (if vowelIdxs wa.word = [] then 0 else wa.stress_pattern.length) := by
  intro cmu g2p tokens wa hwf hmem
  obtain ⟨t, n?, rfl⟩ := analyzeTokens_mem hmem
  exact analyzeToken_lengths cmu g2p t n? hwf

theorem claim_C1_amended_witness :
    (analyzeToken (fun _ => none) (fun _ => [])
        ⟨"love", "NOUN", "", "love", false⟩ none).syllables.length =
      (analyzeToken (fun _ => none) (fun _ => [])
        ⟨"love", "NOUN", "", "love", false⟩ none).stress_pattern.length ∧
    1 ≤ (analyzeToken (fun _ => none) (fun _ => [])
        ⟨"love", "NOUN", "", "love", false⟩ none).stress_pattern.length ∧
    (analyzeToken (fun _ => none) (fun _ => [])
        ⟨"love", "NOUN", "", "love", false⟩ none).char_positions.length =
      (if vowelIdxs (⟨"love", "NOUN", "", "love", false⟩ : Token).text = [] then 0
        else (analyzeToken (fun _ => none) (fun _ => [])
          ⟨"love", "NOUN", "", "love", false⟩ none).stress_pattern.length) := by
  have hmem : analyzeToken (fun _ => none) (fun _ => [])
      ⟨"love", "NOUN", "", "love", false⟩ none ∈
      analyzeTokens (fun _ => none) (fun _ => [])
        [⟨"love", "NOUN", "", "love", false⟩] := by
    have heq : analyzeTokens (fun _ => none) (fun _ => [])
        [⟨"love", "NOUN", "", "love", false⟩] =
        [analyzeToken (fun _ => none) (fun _ => [])
          ⟨"love", "NOUN", "", "love", false⟩ none] := rfl
    rw [heq]
    exact List.mem_singleton_self _
  exact claim_C1_amended (fun _ => none) (fun _ => [])
    [⟨"love", "NOUN", "", "love", false⟩] _
    (fun _ e he => Option.noConfusion he) hmem

end Lyrics
